import Mathlib

/-!
Verification development for the ionic-plugin-build asset pipeline.

The definitions below are a shallow embedding of the JavaScript sources
`src/scripts/common.js` and `src/scripts/beforePrepare.js`.  Pure string
transformations are translated to Lean functions on `String`/`List Char`;
asynchronous, I/O-bound code is translated to explicit state passing over
oracle environments (`BuildEnv`) that stand for the external collaborators
(filesystem, eslint, htmlhint, ng-annotate, uglify, cssnano, cheerio,
html-minifier).  JavaScript truthiness of option flags is modelled by
`Bool` (undefined and false are indistinguishable in the source, which
only ever tests truthiness of these fields).
-/

/-- A lint message as aggregated by `basicReporter`/`lintJs`/`lintHtml`
(`src/scripts/common.js`). -/
structure LintMsg where
  severity : Nat
  line : Nat
  column : Nat
  message : String
  ruleId : String
  ruleUrl : String
deriving DecidableEq

/-- A raw htmlhint message before the field mapping done in `lintHtml`. -/
structure HtmlHintMsg where
  type : String
  line : Nat
  col : Nat
  message : String
  raw : String
  ruleId : String
  ruleUrl : String
deriving DecidableEq

/-- The raw option record passed to `prepareOptions` (common.js lines
126-159).  Each field is a recognized flag; JS truthiness collapses
`undefined`/`false`, so flags are `Bool`.  `include` being a Lean keyword
is irrelevant here; all JS keys are mapped one to one.  The long
dash-separated keys (`angular-debug`, ...) are suffixed `Long`. -/
structure RawOptions where
  h : Bool := false
  help : Bool := false
  p : Bool := false
  prod : Bool := false
  production : Bool := false
  d : Bool := false
  debug : Bool := false
  ad : Bool := false
  angularDebugLong : Bool := false
  sl : Bool := false
  skipLintLong : Bool := false
  nf : Bool := false
  noFailLintLong : Bool := false
  sc : Bool := false
  skipCompLong : Bool := false
  vb : Bool := false
  verb : Bool := false
  verbose : Bool := false
  xr : Bool := false
  extendedReportLong : Bool := false
  sa : Bool := false
  skipAllLong : Bool := false
  ppr : Bool := false
  preprocessResourcesLong : Bool := false
  skipHtmlCompression : Bool := false
  skipResCompression : Bool := false
  dest : Option String := none
deriving DecidableEq

/-- The option record after `prepareOptions` has merged aliases and
derived fields (common.js lines 126-159). -/
structure PreparedOptions where
  help : Bool
  production : Bool
  debug : Bool
  angularDebug : Bool
  skipLint : Bool
  noFailLint : Bool
  skipComp : Bool
  verbose : Bool
  extendedReport : Bool
  skipAll : Bool
  preprocessResources : Bool
  env : String
  concatResources : Bool
  skipHtmlCompression : Bool
  skipResCompression : Bool
  dest : String
deriving DecidableEq

/-- The preprocess context returned by `prepareOptions` (common.js lines
150-158).  `none` models the JS value `undefined`. -/
structure PreprocessCtx where
  NODE_ENV : String
  DEBUG : Option Bool
  ANGULAR_DEBUG : Option Bool
deriving DecidableEq

/-- `prepareOptions` (common.js lines 126-159): merge short/long aliases,
then derive `skipComp`, `env`, `concatResources`, the two compression
overrides and `dest`. -/
def prepareOptions (o : RawOptions) : PreparedOptions :=
  let production := o.p || o.prod || o.production
  let debug := o.d || o.debug
  let angularDebug := o.ad || o.angularDebugLong
  let skipLint := o.sl || o.skipLintLong
  let noFailLint := o.nf || o.noFailLintLong
  let skipComp0 := o.sc || o.skipCompLong
  let verbose := o.vb || o.verb || o.verbose
  let extendedReport := o.xr || o.extendedReportLong
  let skipAll := o.sa || o.skipAllLong
  let preprocessResources := o.ppr || o.preprocessResourcesLong
  let skipComp := if production then skipComp0 else !skipComp0
  { help := o.h || o.help
    production := production
    debug := debug
    angularDebug := angularDebug
    skipLint := skipLint
    noFailLint := noFailLint
    skipComp := skipComp
    verbose := verbose
    extendedReport := extendedReport
    skipAll := skipAll
    preprocessResources := preprocessResources
    env := if production then "production" else "development"
    concatResources := production
    skipHtmlCompression := o.skipHtmlCompression || skipComp
    skipResCompression := o.skipResCompression || skipComp
    dest := o.dest.getD "build" }

/-- The context record returned by `prepareOptions` (common.js lines
150-158); a debug symbol is defined exactly when (flag and production) or
(not flag and not production). -/
def prepareCtx (o : RawOptions) : PreprocessCtx :=
  let production := o.p || o.prod || o.production
  let debug := o.d || o.debug
  let angularDebug := o.ad || o.angularDebugLong
  { NODE_ENV := if production then "production" else "development"
    DEBUG := if (debug && production) || (!debug && !production) then some true else none
    ANGULAR_DEBUG :=
      if (angularDebug && production) || (!angularDebug && !production) then some true else none }

/-- Characters matched by the JavaScript regex class `\s`. -/
def isWsChar (c : Char) : Bool :=
  c = ' ' || c = '\t' || c = '\n' || c = '\r' || c = '\x0b' || c = '\x0c' ||
  c = ' ' || c = ' ' || (0x2000 ≤ c.val && c.val ≤ 0x200A) ||
  c = ' ' || c = ' ' || c = ' ' || c = ' ' ||
  c = '　' || c = '﻿'

/-- Characters matched by the regex class `[^\n,]` (common.js line 480). -/
def exprOkChar (c : Char) : Bool :=
  !(c = ',' || c = '\n')

/-- The literal `templateUrl` searched for by the rewrite regex. -/
def tUrlChars : List Char := "templateUrl".toList

/-- Boolean list-prefix test (literal regex text matching). -/
def isPre : List Char → List Char → Bool
  | [], _ => true
  | _ :: _, [] => false
  | a :: as, b :: bs => a = b && isPre as bs

/-- One backtracking attempt of `\s*([^\n,]+)` at offset `k`: the capture
starts at `k` and extends greedily over `[^\n,]` characters.  Returns the
capture and the remainder of the input after the match. -/
def expandAt (s : List Char) (k : Nat) : Option (List Char × List Char) :=
  match s.drop k with
  | [] => none
  | c :: cs =>
    if exprOkChar c then
      let cap := (c :: cs).takeWhile exprOkChar
      some (cap, (c :: cs).drop cap.length)
    else none

/-- Backtracking search for `\s*([^\n,]+)`: the greedy `\s*` first takes
`k` characters and gives back one at a time until `[^\n,]+` can match. -/
def tryFrom (s : List Char) : Nat → Option (List Char × List Char)
  | 0 => expandAt s 0
  | k + 1 =>
    match expandAt s (k + 1) with
    | some r => some r
    | none => tryFrom s k

/-- Attempt to match `(templateUrl)[\s]*:[\s]*([^\n,]+)` at the head of
`s` (common.js line 480).  On success returns the second capture group
and the input remaining after the whole match. -/
def matchTemplateUrlAt (s : List Char) : Option (List Char × List Char) :=
  if isPre tUrlChars s then
    match (s.drop tUrlChars.length).drop
        (((s.drop tUrlChars.length).takeWhile isWsChar).length) with
    | ':' :: s3 => tryFrom s3 ((s3.takeWhile isWsChar).length)
    | _ => none
  else none

/-- The replacement text before the verbatim capture (common.js line 480;
`$templateCache` is literal in a JS replacement string, `$2` is the
capture). -/
def replPre : List Char :=
  "templateProvider:function($templateCache)\x7breturn $templateCache.get(".toList

/-- The replacement text after the verbatim capture. -/
def replPost : List Char := ")\x7d".toList

/-- Global left-to-right regex replacement, as `String.prototype.replace`
with the `g` flag: scan the input; at each position attempt the match;
on success emit the replacement (never rescanned) and continue after the
matched text, which the `skip` counter steps over structurally. -/
def rewriteGo : List Char → Nat → List Char
  | [], _ => []
  | _ :: rest, Nat.succ k => rewriteGo rest k
  | c :: rest, 0 =>
    match matchTemplateUrlAt (c :: rest) with
    | some (cap, after) =>
      replPre ++ cap ++ replPost ++ rewriteGo rest ((c :: rest).length - after.length - 1)
    | none => c :: rewriteGo rest 0

/-- The `templateUrl` rewrite performed on every script in
`processScripts` (common.js line 480). -/
def rewriteTemplateUrl (s : String) : String := String.mk (rewriteGo s.data 0)

/-! ### Lemmas about the matcher -/

/-- An HTML element as seen through the cheerio query interface. -/
structure HtmlElem where
  tag : String
  attrs : List (String × String)
deriving DecidableEq

/-- `$(element).attr(name)`: `none` models the JS value `undefined`. -/
def attrLookup : List (String × String) → String → Option String
  | [], _ => none
  | pr :: rest, name => if pr.1 == name then some pr.2 else attrLookup rest name

/-- Attribute lookup on an element. -/
def attrOf (e : HtmlElem) (name : String) : Option String :=
  attrLookup e.attrs name

/-- `$(element).attr(name, value)`: update an existing attribute in place
or append a new one. -/
def setAttr (attrs : List (String × String)) (name value : String) :
    List (String × String) :=
  if (attrs.find? (fun pr => pr.1 == name)).isSome then
    attrs.map (fun pr => if pr.1 == name then (pr.1, value) else pr)
  else attrs ++ [(name, value)]

/-- The side effect `$('[ng-app]').each(... attr('ng-strict-di', true))`
(common.js line 335). -/
def addStrictDi (e : HtmlElem) : HtmlElem :=
  if (attrOf e "ng-app").isSome then { e with attrs := setAttr e.attrs "ng-strict-di" "true" }
  else e

/-- Lower-casing on the character level. -/
def lowerChars (l : List Char) : List Char := l.map Char.toLower

/-- Substring containment test on character lists. -/
def containsSeq (sub : List Char) : List Char → Bool
  | [] => sub.isEmpty
  | c :: rest => isPre sub (c :: rest) || containsSeq sub rest

/-- Case-insensitive substring containment. -/
def containsCI (s sub : String) : Bool :=
  containsSeq (lowerChars sub.data) (lowerChars s.data)

/-- Case-insensitive suffix test. -/
def endsWithCI (s suf : String) : Bool :=
  isPre (lowerChars suf.data).reverse (lowerChars s.data).reverse

/-- The stylesheet test `/(\.css$|\.css\?)/i` applied to a defined href
(common.js line 337). -/
def isCssHref (href : String) : Bool :=
  endsWithCI href ".css" || containsCI href ".css?"

/-- The record resolved by `getResources`; `docOut` stands for the
mutated document whose serialization is the returned markup. -/
structure ResourcesR where
  scripts : List (Option String)
  links : List String
  docOut : List HtmlElem
deriving DecidableEq

/-- `getResources` (common.js lines 329-343): add `ng-strict-di` to every
`[ng-app]` element, then push `attr('src')` for every script element (the
value is `undefined` when the attribute is missing) and push the href of
every link element whose defined href passes the stylesheet test. -/
def getResources (doc : List HtmlElem) : ResourcesR :=
  let doc2 := doc.map addStrictDi
  { scripts := doc2.foldl
      (fun acc el => if el.tag == "script" then acc ++ [attrOf el "src"] else acc) []
    links := doc2.foldl
      (fun acc el =>
        if el.tag == "link" then
          match attrOf el "href" with
          | some hre => if isCssHref hre then acc ++ [hre] else acc
          | none => acc
        else acc) []
    docOut := doc2 }

/-- `getResources` wrapped in the promise executor with its try/catch: a
parser failure rejects the whole extraction. -/
def getResourcesE (parse : String → Except String (List HtmlElem)) (indexData : String) :
    Except String ResourcesR :=
  match parse indexData with
  | .error err => .error err
  | .ok doc => .ok (getResources doc)

/-- The link selector applied per element in `getResources`. -/
def linkSel (el : HtmlElem) : Option String :=
  if el.tag == "link" then
    match attrOf el "href" with
    | some hre => if isCssHref hre then some hre else none
    | none => none
  else none

/-- `mpath.join` restricted to the plain relative segments the pipeline
produces (an empty segment disappears, as with Node `path.join`). -/
def joinPath2 (a b : String) : String :=
  if a = "" then b else if b = "" then a else a ++ "/" ++ b

/-- `file.replace(new RegExp(backtick-caret-path-slash-opt, 'gi'), '')`
(common.js lines 272-277, 384): strip a single case-insensitive leading
occurrence of the base path plus an optional slash. -/
def stripPathRoot (path file : String) : String :=
  if isPre (lowerChars path.data) (lowerChars file.data) then
    match file.data.drop path.data.length with
    | '/' :: r2 => String.mk r2
    | rest => String.mk rest
  else file

/-- `split('/')` on the character level. -/
def splitSlash : List Char → List (List Char)
  | [] => [[]]
  | c :: rest =>
    let r := splitSlash rest
    if c = '/' then [] :: r
    else
      match r with
      | [] => [[c]]
      | hd :: tl => (c :: hd) :: tl

/-- `Array.prototype.join(sep)` on the character level. -/
def intercalateChars (sep : Char) : List (List Char) → List Char
  | [] => []
  | [x] => x
  | x :: xs => x ++ sep :: intercalateChars sep xs

/-- The split path segments of the stripped file reference. -/
def copyParts (path file : String) : List (List Char) :=
  splitSlash (stripPathRoot path file).data

/-- The directory part of the stripped file path (`fileParts.join('/')`
after `pop`). -/
def copyDirName (path file : String) : String :=
  String.mk (intercalateChars '/' (copyParts path file).dropLast)

/-- The file-name part of the stripped file path (`fileParts.pop()`). -/
def copyFileName (path file : String) : String :=
  String.mk (((copyParts path file).getLast?).getD [])

/-- `mpath.join(path, fileParts, fileName)`: the computed origin. -/
def copyOrigin (path file : String) : String :=
  joinPath2 (joinPath2 path (copyDirName path file)) (copyFileName path file)

/-- `mpath.join(dest, fileParts, fileName)`: the computed destination,
the same relative layout under the destination root. -/
def copyDest (dest path file : String) : String :=
  joinPath2 (joinPath2 dest (copyDirName path file)) (copyFileName path file)

/-- The copy filter options: a JS object with optional `exclude` and
`include` arrays of pattern matchers (`include` is a Lean keyword, so the
field is named `incl`). -/
structure CopyOpts where
  exclude : Option (List (String → Bool)) := none
  incl : Option (List (String → Bool)) := none

/-- The pattern loop of `copyFiles` (common.js lines 374-381): the flag
starts at the configured default and is flipped by the first matching
pattern, after which the loop breaks. -/
def flipOnMatch (popts : List (String → Bool)) (b : Bool) (f : String) : Bool :=
  match popts.find? (fun pat => pat f) with
  | some _ => !b
  | none => b

/-- `copyFiles` (common.js lines 355-397) as the list of
(origin, destination) pairs actually copied.  `popts` is
`mopts.exclude || mopts.include || []` (a present empty array is truthy
in JS, hence the `Option` match); the starting flag is
`mopts.exclude !== undefined || !(mopts.include !== undefined) || ...`
whose third disjunct is redundant because JS arrays are truthy.  An
undefined entry in `files` is never copied (`isProcessFile && file`). -/
def copyFiles (files : List (Option String)) (path dest : String) (mopts : CopyOpts)
    (fsExists : String → Bool) : List (String × String) :=
  let popts := match mopts.exclude with
    | some e => e
    | none => match mopts.incl with | some i => i | none => []
  let isProcessFileCfg := mopts.exclude.isSome || !mopts.incl.isSome
  files.foldl (fun acc file =>
    match file with
    | none => acc
    | some f =>
      if flipOnMatch popts isProcessFileCfg f && !(f = "") then
        if fsExists (copyOrigin path f) then
          acc ++ [(copyOrigin path f, copyDest dest path f)]
        else acc
      else acc) []

/-- The record returned by `ngAnnotate(code, { add: true })`. -/
structure AnnotateResult where
  errors : List String
  src : String

/-- Oracle environment standing for the external collaborators.
`templates` enumerates the markup files under the template root as
(relative path, content) in enumeration order; `tcacheBody` stands for
the assembly of the template-cache script body by the external
`templatecache` module. -/
structure BuildEnv where
  readF : String → Except String String
  preprocessF : String → String
  eslint : String → String → List LintMsg
  annotateF : String → AnnotateResult
  minifyJs : String → String
  cssnanoF : String → String
  htmlMinifyF : String → String
  htmlhintF : String → List HtmlHintMsg
  parseHtml : String → Except String (List HtmlElem)
  htmlOf : List HtmlElem → String
  templates : List (String × String)
  globFiles : String → List String
  fsExists : String → Bool
  tcacheBody : List String → String

/-- `readFile(filePath, isPreprocess)` (common.js lines 207-221): read,
then preprocess the contents when requested. -/
def readFileM (env : BuildEnv) (isPp : Bool) (p : String) : Except String String :=
  match env.readF p with
  | .error e => .error e
  | .ok d => .ok (if isPp then env.preprocessF d else d)

/-- The lint-skip test `new RegExp(bowerDir-or-node_modules, 'i')`
(common.js line 668) applied to a full file name. -/
def skipLintMatch (bowerDir fullName : String) : Bool :=
  containsCI fullName (bowerDir ++ "/") || containsCI fullName "node_modules/"

/-- The test `/templates\.js$/gi` on the file name (common.js line 292). -/
def isTemplatesJsName (fileName : String) : Bool :=
  endsWithCI fileName "templates.js"

/-- The test `/\.min\.js$/gi` on the script reference (common.js 508). -/
def isMinJs (script : String) : Bool :=
  endsWithCI script ".min.js"

/-- The test `/(\.min\.css$|\.min\.css\?)/gi` on the link reference
(common.js line 548). -/
def isMinCss (link : String) : Bool :=
  endsWithCI link ".min.css" || containsCI link ".min.css?"

/-- `lintJs` (common.js lines 286-300): skip when linting is globally
off, the path matches the vendored/installed pattern, or the file is the
generated template registry; otherwise ask the eslint oracle. -/
def lintJs (opts : PreparedOptions) (env : BuildEnv) (bowerDir path fileName code : String) :
    List LintMsg :=
  let fullName := joinPath2 path fileName
  if !opts.skipLint && !skipLintMatch bowerDir fullName && !isTemplatesJsName fileName then
    env.eslint fullName code
  else []

/-- `lintHtml` (common.js lines 302-322): skip under the same global and
vendored conditions, otherwise map the raw htmlhint messages into the
aggregated shape. -/
def lintHtml (opts : PreparedOptions) (env : BuildEnv) (bowerDir path fileName code : String) :
    List LintMsg :=
  let fullName := joinPath2 path fileName
  if !opts.skipLint && !skipLintMatch bowerDir fullName then
    (env.htmlhintF code).map (fun m =>
      { severity := if m.type == "error" then 2 else 1
        line := m.line
        column := m.col
        message := m.message ++ " Raw: " ++ m.raw
        ruleId := m.ruleId
        ruleUrl := m.ruleUrl })
  else []

/-- The isolated invocation scope wrapper (common.js line 514). -/
def wrapIife (code : String) : String :=
  "~(function()\x7b\n" ++ code ++ "\n\x7d)()"

/-- The minification step of the script pipeline (common.js lines
507-513): minify only when compression is not skipped, no error has been
recorded so far, and the name does not already indicate minified code. -/
def minStep (opts : PreparedOptions) (env : BuildEnv) (script code : String) (b : Bool) :
    String :=
  if !opts.skipComp && b then
    if !isMinJs script then env.minifyJs code else code
  else code

/-- The promise chain for one script (common.js lines 473-518): read and
optionally preprocess, lint, rewrite `templateUrl`, annotate (throwing on
annotator errors), record lint messages and fail the stage unless
`noFailLint`, optionally minify, wrap; the final catch turns any error
into an undefined contribution.  Returns (per-file result, pushed
messages, updated shared isNoErrors flag). -/
def processOneScript (opts : PreparedOptions) (env : BuildEnv)
    (bowerDir path script : String) (isNoErrors : Bool) :
    Option String × List (String × List LintMsg) × Bool :=
  match readFileM env opts.preprocessResources (joinPath2 path script) with
  | .error _ => (none, [], isNoErrors)
  | .ok code0 =>
    let messages := lintJs opts env bowerDir path script code0
    let res := env.annotateF (rewriteTemplateUrl code0)
    if res.errors.length ≠ 0 then (none, [], isNoErrors)
    else if messages.length > 0 then
      if !opts.noFailLint then (none, [(joinPath2 path script, messages)], false)
      else
        (some (wrapIife (minStep opts env script res.src isNoErrors)),
          [(joinPath2 path script, messages)], isNoErrors)
    else (some (wrapIife (minStep opts env script res.src isNoErrors)), [], isNoErrors)

/-- The `if (script)` truthiness filter of the forEach loop (common.js
line 472): only truthy script references get a promise. -/
def truthyList (scripts : List (Option String)) : List String :=
  scripts.filterMap (fun s =>
    match s with
    | none => none
    | some v => if v = "" then none else some v)

/-- `Array.prototype.join('\n')` over the promise results where an
undefined result contributes an empty string. -/
def joinNl (parts : List String) : String :=
  String.mk (intercalateChars (Char.ofNat 10) (parts.map String.data))

/-- The sequential run of all per-script chains, threading the shared
`allMessages` array and `isNoErrors` flag. -/
def processScriptsRun (opts : PreparedOptions) (env : BuildEnv)
    (bowerDir path : String) (scripts : List (Option String)) :
    List (Option String) × List (String × List LintMsg) × Bool :=
  (truthyList scripts).foldl (fun st s =>
    let r := processOneScript opts env bowerDir path s st.2.2
    (st.1 ++ [r.1], st.2.1 ++ r.2.1, r.2.2)) ([], [], true)

/-- `processScripts` (common.js lines 466-530): after all chains settle,
reject with `JS lint errors` when the shared flag was cleared, otherwise
resolve with the joined results in reference order. -/
def processScripts (opts : PreparedOptions) (env : BuildEnv)
    (bowerDir path : String) (scripts : List (Option String)) : Except String String :=
  let st := processScriptsRun opts env bowerDir path scripts
  if st.2.2 then .ok (joinNl (st.1.map (fun o => o.getD ""))) else .error "JS lint errors"

/-- Global literal substring replacement (the fixed textual substitutions
of `processLinks`), with the same left-to-right no-rescan semantics as
`String.prototype.replace` with a literal global regex. -/
def replaceGo (pat repl : List Char) : List Char → Nat → List Char
  | [], _ => []
  | _ :: rest, Nat.succ k => replaceGo pat repl rest k
  | c :: rest, 0 =>
    if !pat.isEmpty && isPre pat (c :: rest) then
      repl ++ replaceGo pat repl rest (pat.length - 1)
    else c :: replaceGo pat repl rest 0

/-- String-level wrapper for `replaceGo`. -/
def replaceAll (pat repl s : String) : String :=
  String.mk (replaceGo pat.data repl.data s.data 0)

/-- The promise chain for one stylesheet (common.js lines 541-555): read
and optionally preprocess, apply the four fixed path substitutions,
optionally run the CSS optimizer; the catch turns any error into an
undefined contribution. -/
def processOneLink (opts : PreparedOptions) (env : BuildEnv)
    (bowerInner path link : String) : Option String :=
  match readFileM env opts.preprocessResources (joinPath2 path link) with
  | .error _ => none
  | .ok code0 =>
    let c1 := replaceAll "../fonts/ionicons" (bowerInner ++ "/ionic/fonts/ionicons") code0
    let c2 := replaceAll "../fonts/fontawesome"
      (bowerInner ++ "/components-font-awesome/fonts/fontawesome") c1
    let c3 := replaceAll "../img/" "img/" c2
    let c4 := replaceAll "../fonts/" "fonts/" c3
    if !opts.skipComp && !isMinCss link then some (env.cssnanoF c4) else some c4

/-- `processLinks` (common.js lines 538-560): always resolves with the
joined per-link results in reference order. -/
def processLinks (opts : PreparedOptions) (env : BuildEnv)
    (bowerInner path : String) (links : List String) : String :=
  joinNl ((links.map (processOneLink opts env bowerInner path)).map (fun o => o.getD ""))

/-- Whether one script clears the shared `isNoErrors` flag: its chain
reached the lint-message check (read and annotate succeeded), produced
messages, and `noFailLint` is off. -/
def scriptFlips (opts : PreparedOptions) (env : BuildEnv)
    (bowerDir path script : String) : Bool :=
  match readFileM env opts.preprocessResources (joinPath2 path script) with
  | .error _ => false
  | .ok code0 =>
    if (env.annotateF (rewriteTemplateUrl code0)).errors.length ≠ 0 then false
    else ((lintJs opts env bowerDir path script code0).length > 0) && !opts.noFailLint

/-- A concrete oracle environment: every read yields `A` except
`p/b.js`, whose rewritten code `B` makes the annotator report an error;
lint is clean everywhere. -/
def c1env : BuildEnv :=
  { readF := fun p => if p = "p/b.js" then .ok "B" else .ok "A"
    preprocessF := id
    eslint := fun _ _ => []
    annotateF := fun c => if c = "B" then { errors := ["e"], src := c } else { errors := [], src := c }
    minifyJs := id
    cssnanoF := id
    htmlMinifyF := id
    htmlhintF := fun _ => []
    parseHtml := fun _ => .ok []
    htmlOf := fun _ => ""
    templates := []
    globFiles := fun _ => []
    fsExists := fun _ => false
    tcacheBody := fun _ => "" }

/-- Prepared options with production and the explicit skip flag set, so
compression is skipped. -/
def c1opts : PreparedOptions := prepareOptions { p := true, sc := true }

/-- A concrete oracle environment in which every file read fails. -/
def c3env : BuildEnv :=
  { readF := fun _ => .error "ENOENT"
    preprocessF := id
    eslint := fun _ _ => []
    annotateF := fun c => { errors := [], src := c }
    minifyJs := id
    cssnanoF := id
    htmlMinifyF := id
    htmlhintF := fun _ => []
    parseHtml := fun _ => .ok []
    htmlOf := fun _ => ""
    templates := []
    globFiles := fun _ => []
    fsExists := fun _ => false
    tcacheBody := fun _ => "" }

/-- Leftmost start index of `sub` in a character list. -/
def findSeqIdx (sub : List Char) : List Char → Option Nat
  | [] => if sub.isEmpty then some 0 else none
  | c :: rest =>
    if isPre sub (c :: rest) then some 0
    else (findSeqIdx sub rest).map (· + 1)

/-- Rightmost start index of `sub` in a character list. -/
def findSeqIdxLast (sub : List Char) : List Char → Option Nat
  | [] => if sub.isEmpty then some 0 else none
  | c :: rest =>
    match (findSeqIdxLast sub rest).map (· + 1) with
    | some j => some j
    | none => if isPre sub (c :: rest) then some 0 else none

/-- The greedy case-insensitive region replacement
`indexData.replace(startM-dotall-endM-regex, repl)` (common.js lines
630-631): replace from the first start marker through the last end
marker that leaves at least one character between them. -/
def replaceRegion (startM endM repl s : String) : String :=
  let low := lowerChars s.data
  let sm := lowerChars startM.data
  let em := lowerChars endM.data
  match findSeqIdx sm low with
  | none => s
  | some i =>
    match findSeqIdxLast em low with
    | none => s
    | some j =>
      if i + sm.length + 1 ≤ j then
        String.mk (s.data.take i ++ repl.data ++ s.data.drop (j + em.length))
      else s

/-- The final `.then` of `processAngular` (common.js lines 616-639):
decide the overall outcome from the two stage outputs, then append the
wrapped template registry, rewrite both marker regions with cache-busted
tags, minify the entry HTML and emit the three artifacts. -/
def assembleOutcome (env : BuildEnv) (templatesjs indexData jsData cssData : String)
    (now1 now2 : Nat) : Except String (List (String × String)) :=
  if jsData = "" && cssData = "" then .error "CSS and JS failed"
  else if jsData = "" then .error "JS failed"
  else if cssData = "" then .error "CSS failed"
  else
    let jsAll := jsData ++ "\n" ++ wrapIife templatesjs
    let idx1 := replaceRegion "<!--startcss-->" "<!--endcss-->"
      ("<link href=\"all.min.css?v=" ++ toString now1 ++ "\" rel=\"stylesheet\">") indexData
    let idx2 := replaceRegion "<!--startsrc-->" "<!--endsrc-->"
      ("<script src=\"all.min.js?v=" ++ toString now2 ++ "\"></script>") idx1
    .ok [("index.html", env.htmlMinifyF idx2), ("all.min.js", jsAll), ("all.min.css", cssData)]

/-- Write results into their slots in completion order. -/
def setFold (v : Nat → Option String) : List Nat → List (Option String) → List (Option String)
  | [], acc => acc
  | i :: rest, acc => setFold v rest (acc.set i (v i))

/-- The script stage under an explicit completion order: each step runs
one script chain against the shared flag, stores its result in its own
slot of the results array and updates the flag. -/
def schedRun (opts : PreparedOptions) (env : BuildEnv) (bowerDir path : String)
    (items : List String) : List Nat → List (Option String) × Bool →
    List (Option String) × Bool
  | [], st => st
  | i :: rest, st =>
    match items[i]? with
    | none => schedRun opts env bowerDir path items rest st
    | some s =>
      schedRun opts env bowerDir path items rest
        (st.1.set i (processOneScript opts env bowerDir path s st.2).1,
          (processOneScript opts env bowerDir path s st.2).2.2)

/-- `processScripts` under an explicit completion order: the aggregation
of common.js lines 524-529 over the scheduled results. -/
def processScriptsSched (opts : PreparedOptions) (env : BuildEnv) (bowerDir path : String)
    (items : List String) (order : List Nat) : Except String String :=
  let st := schedRun opts env bowerDir path items order
    (List.replicate items.length none, true)
  if st.2 then .ok (joinNl (st.1.map (fun o => o.getD ""))) else .error "JS lint errors"

/-- The per-slot stylesheet result. -/
def linkResultAt (opts : PreparedOptions) (env : BuildEnv) (bowerInner path : String)
    (links : List String) (i : Nat) : Option String :=
  match links[i]? with
  | none => none
  | some l => processOneLink opts env bowerInner path l

/-- `processLinks` under an explicit completion order. -/
def processLinksSched (opts : PreparedOptions) (env : BuildEnv) (bowerInner path : String)
    (links : List String) (order : List Nat) : String :=
  joinNl ((setFold (linkResultAt opts env bowerInner path links) order
    (List.replicate links.length none)).map (fun o => o.getD ""))

/-- The directory roots touched by the build. -/
inductive FsRoot
  | tmpR
  | wwwR
  | logsR
deriving DecidableEq

/-- Observable filesystem effects of the orchestration. -/
inductive FsEffect
  | clean : FsRoot → FsEffect
  | mkdir : FsRoot → FsEffect
  | fwrite : FsRoot → String → FsEffect
  | fcopy : FsRoot → String → String → FsEffect
  | fmove : FsRoot → FsRoot → FsEffect
  | openView : String → FsEffect
deriving DecidableEq

/-- Whether an effect touches the given root. -/
def effectTouches (r : FsRoot) : FsEffect → Bool
  | .clean r2 => r2 == r
  | .mkdir r2 => r2 == r
  | .fwrite r2 _ => r2 == r
  | .fcopy r2 _ _ => r2 == r
  | .fmove a b => a == r || b == r
  | .openView _ => false

/-- `processTemplateResources` (common.js lines 407-410): extract the
resources referenced inside a template and copy them (filter-free) from
the source root to the build destination. -/
def processTemplateResourcesT (env : BuildEnv) (destRoot : FsRoot)
    (content path destPath : String) : Except String (List FsEffect) :=
  match getResourcesE env.parseHtml content with
  | .error e => .error e
  | .ok r =>
    let c1 := copyFiles r.scripts path destPath {} env.fsExists
    let c2 := copyFiles (r.links.map some) path destPath {} env.fsExists
    .ok ((c1 ++ c2).map (fun pr => FsEffect.fcopy destRoot pr.1 pr.2))

/-- Prepend a processed template content to the outputs of the remaining
template loop when it succeeded; propagate its rejection otherwise. -/
def consOut (c : String)
    (r : Except String (List String) × List (String × List LintMsg) × List FsEffect) :
    Except String (List String) × List (String × List LintMsg) × List FsEffect :=
  match r with
  | (Except.ok outs, m, ef) => (Except.ok (c :: outs), m, ef)
  | r => r

/-- The template loop of `prepareTemplates` (common.js lines 430-451):
lint each template, record messages, reject on lint failure unless
`noFailLint`, copy the resources referenced inside the template and
contribute the preprocessed content; the rejection of a content modifier
propagates out of the external templatecache call.  Returns the
per-template contents, the aggregated messages and the effect trace. -/
def prepareTemplatesGo (opts : PreparedOptions) (env : BuildEnv) (bowerDir : String)
    (destRoot : FsRoot) (path destPath : String) :
    List (String × String) → List (String × List LintMsg) → List FsEffect →
    Except String (List String) × List (String × List LintMsg) × List FsEffect
  | [], msgs, effs => (.ok [], msgs, effs)
  | (fp, content) :: rest, msgs, effs =>
    let messages := lintHtml opts env bowerDir path fp content
    if messages.length > 0 then
      let msgs2 := msgs ++ [(joinPath2 path fp, messages)]
      if !opts.noFailLint then (.error "Linting failed", msgs2, effs)
      else
        match processTemplateResourcesT env destRoot content path destPath with
        | .error e => (.error e, msgs2, effs)
        | .ok newEffs =>
          consOut (env.preprocessF content)
            (prepareTemplatesGo opts env bowerDir destRoot path destPath rest msgs2
              (effs ++ newEffs))
    else
      match processTemplateResourcesT env destRoot content path destPath with
      | .error e => (.error e, msgs, effs)
      | .ok newEffs =>
        consOut (env.preprocessF content)
          (prepareTemplatesGo opts env bowerDir destRoot path destPath rest msgs
            (effs ++ newEffs))

/-- `prepareTemplates` (common.js lines 419-458): run the template loop,
then write and open the extended report when requested and messages
exist, then resolve with the template-cache body (a reached resolution
means no fatal lint failure occurred). -/
def prepareTemplatesT (opts : PreparedOptions) (env : BuildEnv) (bowerDir : String)
    (destRoot : FsRoot) (path destPath : String) :
    Except String String × List FsEffect :=
  match prepareTemplatesGo opts env bowerDir destRoot path destPath env.templates [] [] with
  | (.error e, _msgs, effs) => (.error e, effs)
  | (.ok outs, msgs, effs) =>
    let reportEffs := if opts.extendedReport && msgs.length > 0 then
      [FsEffect.fwrite .logsR "htmllint-report", FsEffect.openView "htmllint-report"]
    else []
    (.ok (env.tcacheBody outs), effs ++ reportEffs)

/-- `processAngular` (common.js lines 585-640) with its effect trace:
templates, entry read and extraction, the three sub-stages, assembly and
the three artifact writes into the build destination. -/
def processAngularT (opts : PreparedOptions) (env : BuildEnv)
    (bowerDir bowerInner : String) (destRoot : FsRoot)
    (path dest localPath : String) (now1 now2 : Nat) :
    Except String (List (String × String)) × List FsEffect :=
  let destPath := joinPath2 dest localPath
  match prepareTemplatesT opts env bowerDir destRoot path destPath with
  | (.error e, effs) => (.error e, effs)
  | (.ok templatesjs, effs) =>
    match readFileM env true (joinPath2 path "index.html") with
    | .error e => (.error e, effs)
    | .ok indexData =>
      match getResourcesE env.parseHtml indexData with
      | .error e => (.error e, effs)
      | .ok r =>
        let st := processScriptsRun opts env bowerDir path r.scripts
        let jsReport := if opts.extendedReport && st.2.1.length > 0 then
          [FsEffect.fwrite .logsR "eslint-report", FsEffect.openView "eslint-report"]
        else []
        if st.2.2 = false then (.error "JS lint errors", effs ++ jsReport)
        else
          let jsData := joinNl (st.1.map (fun o => o.getD ""))
          let cssData := processLinks opts env bowerInner path r.links
          let resPairs := copyFiles ((env.globFiles path).map some) path destPath
            { exclude := some [fun f => endsWithCI f ".js", fun f => endsWithCI f ".css",
                fun f => endsWithCI f ".html"] } env.fsExists
          let resEffs := resPairs.map (fun pr => FsEffect.fcopy destRoot pr.1 pr.2)
          match assembleOutcome env templatesjs (env.htmlOf r.docOut) jsData cssData
              now1 now2 with
          | .error e => (.error e, effs ++ jsReport ++ resEffs)
          | .ok arts => (.ok arts, effs ++ jsReport ++ resEffs ++
              arts.map (fun a => FsEffect.fwrite destRoot a.1))

/-- `build` (beforePrepare.js lines 77-89): clean and recreate the
temporary root, run `processAngular` into it, and only on success wipe
and recreate the final `www` root, move the build output there and remove
the temporary root; any failure propagates as a rejected build. -/
def buildT (opts : PreparedOptions) (env : BuildEnv) (bowerDir bowerInner : String)
    (now1 now2 : Nat) : Except String Unit × List FsEffect :=
  match processAngularT opts env bowerDir bowerInner .tmpR "src" "tmp" "" now1 now2 with
  | (.error e, t) => (.error e, [FsEffect.clean .tmpR, FsEffect.mkdir .tmpR] ++ t)
  | (.ok _, t) => (.ok (), [FsEffect.clean .tmpR, FsEffect.mkdir .tmpR] ++ t ++
      [FsEffect.clean .wwwR, FsEffect.mkdir .wwwR, FsEffect.fmove .tmpR .wwwR,
        FsEffect.clean .tmpR])

/-- A concrete htmlhint message. -/
def c7msg : HtmlHintMsg :=
  { type := "error"
    line := 1
    col := 1
    message := "bad"
    raw := "<p>"
    ruleId := "tag-pair"
    ruleUrl := "" }

/-- A concrete environment with one template whose content produces an
htmlhint message. -/
def c7env : BuildEnv :=
  { readF := fun _ => .ok ""
    preprocessF := id
    eslint := fun _ _ => []
    annotateF := fun c => { errors := [], src := c }
    minifyJs := id
    cssnanoF := id
    htmlMinifyF := id
    htmlhintF := fun _ => [c7msg]
    parseHtml := fun _ => .ok []
    htmlOf := fun _ => ""
    templates := [("t.html", "<p>")]
    globFiles := fun _ => []
    fsExists := fun _ => false
    tcacheBody := fun _ => "" }

/-- Prepared options from an empty raw record: `noFailLint` and
`skipLint` are off. -/
def c7opts : PreparedOptions := prepareOptions {}

/-- Claim C2 counterexample: with `production` unset and the skip flag
`sc` explicitly set, `prepareOptions` produces `skipComp = false`, i.e.
compression is performed in development mode although the claim states an
explicit skip flag always results in compression being skipped. -/
theorem C2_counterexample :
    ¬ ((prepareOptions { sc := true }).skipComp = true) := by
  decide

/-- Claim C2 (amended): the derived skip-compression flag defaults to the
opposite of the production flag when the raw flag is unset; when the raw
skip flag is set, the derived flag equals the production flag, i.e. the
explicit flag is honoured in production but negated in development, where
it enables compression. -/
theorem C2_skipComp (o : RawOptions) :
    (o.sc = false ∧ o.skipCompLong = false →
      (prepareOptions o).skipComp = !(prepareOptions o).production) ∧
    (o.sc = true ∨ o.skipCompLong = true →
      (prepareOptions o).skipComp = (prepareOptions o).production) := by
  constructor
  · rintro ⟨h1, h2⟩
    simp [prepareOptions, h1, h2]
  · intro h
    rcases h with h | h <;> simp [prepareOptions, h]

/-- Witness for C2: the amended theorem applied at a concrete option
record (production set, skip flag set: compression is skipped). -/
theorem C2_witness :
    ({ p := true, sc := true : RawOptions }.sc = true ∨
      { p := true, sc := true : RawOptions }.skipCompLong = true) ∧
    (prepareOptions { p := true, sc := true }).skipComp =
      (prepareOptions { p := true, sc := true }).production :=
  ⟨Or.inl rfl, (C2_skipComp { p := true, sc := true }).2 (Or.inl rfl)⟩

/-! ## String scanning primitives for the textual rewrites in common.js -/

theorem isPre_append (p t : List Char) : isPre p (p ++ t) = true := by
  induction p with
  | nil => rfl
  | cons a as ih => simp [isPre, ih]

theorem takeWhile_all {p : Char → Bool} {l : List Char}
    (h : ∀ c ∈ l, p c = true) : l.takeWhile p = l := by
  induction l with
  | nil => rfl
  | cons a as ih =>
    have ha := h a (List.mem_cons_self a as)
    have ih2 := ih fun c hc => h c (List.mem_cons_of_mem a hc)
    simp [List.takeWhile, ha, ih2]

theorem takeWhile_append_stop {p : Char → Bool} {l : List Char}
    (h : ∀ c ∈ l, p c = true) {b : Char} {r : List Char} (hb : p b = false) :
    (l ++ b :: r).takeWhile p = l := by
  induction l with
  | nil => simp [List.takeWhile, hb]
  | cons a as ih =>
    have ha := h a (List.mem_cons_self a as)
    have ih2 := ih fun c hc => h c (List.mem_cons_of_mem a hc)
    simp [List.takeWhile, ha, ih2]

theorem tryFrom_of_expandAt {s : List Char} {k : Nat}
    {r : List Char × List Char} (h : expandAt s k = some r) :
    tryFrom s k = some r := by
  cases k with
  | zero => simpa [tryFrom] using h
  | succ k => simp [tryFrom, h]

theorem expandAt_spec {s : List Char} {k : Nat} {cap after : List Char}
    (h : expandAt s k = some (cap, after)) :
    1 ≤ cap.length ∧ after = s.drop (k + cap.length) := by
  unfold expandAt at h
  cases hd : s.drop k with
  | nil => rw [hd] at h; cases h
  | cons c cs =>
    rw [hd] at h
    dsimp only at h
    by_cases hc : exprOkChar c = true
    · rw [if_pos hc] at h
      simp only [Option.some.injEq, Prod.mk.injEq] at h
      obtain ⟨hcap, hafter⟩ := h
      rw [hcap] at hafter
      constructor
      · rw [← hcap, List.takeWhile_cons, if_pos hc]
        simp
      · rw [← hafter, ← hd, List.drop_drop]
    · rw [if_neg hc] at h
      cases h

theorem tryFrom_spec {s : List Char} {k : Nat} {cap after : List Char}
    (h : tryFrom s k = some (cap, after)) :
    ∃ j, 1 ≤ j ∧ after = s.drop j := by
  induction k with
  | zero =>
    obtain ⟨h1, h2⟩ := expandAt_spec (by simpa [tryFrom] using h)
    exact ⟨0 + cap.length, by omega, h2⟩
  | succ k ih =>
    rw [tryFrom] at h
    cases hE : expandAt s (k + 1) with
    | some r =>
      rw [hE] at h
      simp only [Option.some.injEq] at h
      subst h
      obtain ⟨h1, h2⟩ := expandAt_spec hE
      exact ⟨k + 1 + cap.length, by omega, h2⟩
    | none => rw [hE] at h; exact ih h

theorem matchAt_spec {s cap after : List Char}
    (h : matchTemplateUrlAt s = some (cap, after)) :
    ∃ m, 1 ≤ m ∧ after = s.drop m := by
  unfold matchTemplateUrlAt at h
  split at h
  · split at h
    · rename_i s3 heq
      obtain ⟨j, hj, ha⟩ := tryFrom_spec h
      refine ⟨tUrlChars.length +
        (((s.drop tUrlChars.length).takeWhile isWsChar).length + 1) + j, by omega, ?_⟩
      have h1 : ((s.drop tUrlChars.length).drop
          (((s.drop tUrlChars.length).takeWhile isWsChar).length)).drop 1 = s3 := by
        rw [heq]
        rfl
      rw [List.drop_drop, List.drop_drop] at h1
      rw [ha, ← h1, List.drop_drop]
    · cases h
  · cases h

theorem rewriteGo_skip (l : List Char) (k : Nat) :
    rewriteGo l k = rewriteGo (l.drop k) 0 := by
  induction l generalizing k with
  | nil => cases k <;> rfl
  | cons c rest ih =>
    cases k with
    | zero => rfl
    | succ k => rw [rewriteGo, List.drop_succ_cons, ih]

theorem matchAt_of_isPre_false {s : List Char}
    (h : isPre tUrlChars s = false) : matchTemplateUrlAt s = none := by
  unfold matchTemplateUrlAt
  rw [h]
  rfl

theorem rewriteGo_step {s cap after : List Char} (hs : s ≠ [])
    (h : matchTemplateUrlAt s = some (cap, after)) :
    rewriteGo s 0 = replPre ++ cap ++ replPost ++ rewriteGo after 0 := by
  cases s with
  | nil => exact absurd rfl hs
  | cons c rest =>
    obtain ⟨m, hm, ha⟩ := matchAt_spec h
    have h0 : rewriteGo (c :: rest) 0 =
        replPre ++ cap ++ replPost ++ rewriteGo rest ((c :: rest).length - after.length - 1) := by
      rw [rewriteGo, h]
    rw [h0, rewriteGo_skip rest]
    have hlen : after.length = (c :: rest).length - m := by
      rw [ha, List.length_drop]
    have hdrop : rest.drop ((c :: rest).length - after.length - 1) = after := by
      by_cases hcase : m ≤ (c :: rest).length
      · have hm1 : (c :: rest).length - after.length - 1 = m - 1 := by
          simp only [hlen]
          omega
        rw [hm1, ha]
        have : (c :: rest).drop (m - 1 + 1) = rest.drop (m - 1) := List.drop_succ_cons ..
        rw [← this]
        congr 1
        omega
      · have hafter : after = [] := by
          rw [ha]
          exact List.drop_eq_nil_of_le (by omega)
        rw [hafter]
        apply List.drop_eq_nil_of_le
        simp only [hafter, List.length_nil] at hlen ⊢
        simp only [List.length_cons] at hcase ⊢
        omega
    rw [hdrop]

theorem rewriteGo_prefix_scan (pre tail : List Char)
    (hpre : ∀ i, i < pre.length → isPre tUrlChars ((pre ++ tail).drop i) = false) :
    rewriteGo (pre ++ tail) 0 = pre ++ rewriteGo tail 0 := by
  induction pre with
  | nil => simp
  | cons c pre ih =>
    have h0 : isPre tUrlChars (c :: (pre ++ tail)) = false := by
      have := hpre 0 (by simp)
      simpa using this
    have hm := matchAt_of_isPre_false h0
    have step : rewriteGo ((c :: pre) ++ tail) 0 = c :: rewriteGo (pre ++ tail) 0 := by
      rw [List.cons_append, rewriteGo, hm]
    rw [step, ih fun i hi => by
      have := hpre (i + 1) (by simpa using Nat.succ_lt_succ hi)
      simpa using this]
    rfl

theorem matchAt_canonical (ws1 ws2 es rest : List Char) (e : Char)
    (h1 : ∀ c ∈ ws1, isWsChar c = true) (h2 : ∀ c ∈ ws2, isWsChar c = true)
    (h3 : isWsChar e = false)
    (h4 : ∀ c ∈ e :: es, exprOkChar c = true)
    (h5 : rest = [] ∨ ∃ r rs, rest = r :: rs ∧ exprOkChar r = false) :
    matchTemplateUrlAt (tUrlChars ++ (ws1 ++ ':' :: (ws2 ++ (e :: (es ++ rest))))) =
      some (e :: es, rest) := by
  have hcolon : isWsChar ':' = false := by decide
  have hP : isPre tUrlChars (tUrlChars ++ (ws1 ++ ':' :: (ws2 ++ (e :: (es ++ rest))))) = true :=
    isPre_append _ _
  unfold matchTemplateUrlAt
  rw [hP]
  rw [if_pos rfl]
  rw [List.drop_left, takeWhile_append_stop h1 hcolon, List.drop_left]
  show tryFrom (ws2 ++ e :: (es ++ rest))
      ((List.takeWhile isWsChar (ws2 ++ e :: (es ++ rest))).length) = some (e :: es, rest)
  rw [takeWhile_append_stop h2 h3]
  apply tryFrom_of_expandAt
  unfold expandAt
  rw [List.drop_left]
  dsimp only
  rw [if_pos (h4 e (List.mem_cons_self e es))]
  rcases h5 with h5 | ⟨r, rs, hr, hbad⟩
  · subst h5
    rw [List.append_nil]
    have hcap : (e :: es).takeWhile exprOkChar = e :: es := takeWhile_all h4
    rw [hcap, List.drop_length]
  · subst hr
    have hsplit : (e :: (es ++ r :: rs)) = (e :: es) ++ r :: rs := by simp
    rw [hsplit, takeWhile_append_stop h4 hbad, List.drop_left]

/-- Claim C6: in the script rewrite of `processScripts` (common.js line
480), every occurrence of `templateUrl`, optional whitespace, a colon,
optional whitespace and a nonempty expression running up to the next
comma or newline is replaced by
`templateProvider:function($templateCache)\x7breturn $templateCache.get(expr)\x7d`
with the expression captured verbatim, and the purely textual scan
continues after the matched text (global substitution). -/
theorem C6_templateUrl (pre ws1 ws2 es rest : List Char) (e : Char)
    (hpre : ∀ i, i < pre.length →
      isPre tUrlChars
        ((pre ++ (tUrlChars ++ (ws1 ++ ':' :: (ws2 ++ (e :: (es ++ rest)))))).drop i) = false)
    (h1 : ∀ c ∈ ws1, isWsChar c = true) (h2 : ∀ c ∈ ws2, isWsChar c = true)
    (h3 : isWsChar e = false)
    (h4 : ∀ c ∈ e :: es, exprOkChar c = true)
    (h5 : rest = [] ∨ ∃ r rs, rest = r :: rs ∧ exprOkChar r = false) :
    rewriteTemplateUrl
        (String.mk (pre ++ (tUrlChars ++ (ws1 ++ ':' :: (ws2 ++ (e :: (es ++ rest))))))) =
      String.mk (pre ++ (replPre ++ ((e :: es) ++ (replPost ++ rewriteGo rest 0)))) := by
  have hmain := rewriteGo_step
      (s := tUrlChars ++ (ws1 ++ ':' :: (ws2 ++ (e :: (es ++ rest)))))
      (by simp [tUrlChars]) (matchAt_canonical ws1 ws2 es rest e h1 h2 h3 h4 h5)
  unfold rewriteTemplateUrl
  congr 1
  show rewriteGo (pre ++ (tUrlChars ++ (ws1 ++ ':' :: (ws2 ++ (e :: (es ++ rest)))))) 0 =
    pre ++ (replPre ++ ((e :: es) ++ (replPost ++ rewriteGo rest 0)))
  rw [rewriteGo_prefix_scan pre _ hpre, hmain]
  simp [List.append_assoc]

/-- Witness for C6: the theorem applied to the concrete script text
`a=templateUrl: qv1,z`. -/
theorem C6_witness :
    (∀ i, i < ("a=".toList).length →
      isPre tUrlChars
        (("a=".toList ++ (tUrlChars ++ ([] ++ ':' :: ([' '] ++
          ('q' :: ("v1".toList ++ ",z".toList)))))).drop i) = false) ∧
    (∀ c ∈ ([] : List Char), isWsChar c = true) ∧
    (∀ c ∈ [' '], isWsChar c = true) ∧
    isWsChar 'q' = false ∧
    (∀ c ∈ 'q' :: "v1".toList, exprOkChar c = true) ∧
    (",z".toList = [] ∨ ∃ r rs, ",z".toList = r :: rs ∧ exprOkChar r = false) ∧
    rewriteTemplateUrl
        (String.mk ("a=".toList ++ (tUrlChars ++ ([] ++ ':' :: ([' '] ++
          ('q' :: ("v1".toList ++ ",z".toList))))))) =
      String.mk ("a=".toList ++ (replPre ++ (('q' :: "v1".toList) ++
        (replPost ++ rewriteGo (",z".toList) 0)))) :=
  ⟨by decide, by decide, by decide, by decide, by decide,
   Or.inr ⟨',', "z".toList, rfl, by decide⟩,
   C6_templateUrl "a=".toList [] [' '] "v1".toList ",z".toList 'q'
     (by decide) (by decide) (by decide) (by decide) (by decide)
     (Or.inr ⟨',', "z".toList, rfl, by decide⟩)⟩

/-! ## Resource extraction from the entry HTML (`getResources`, common.js
lines 329-343).  The cheerio document is modelled as the list of its
elements in document order; `attr` is attribute lookup. -/

/-- Claim C8 counterexample: a script element without a `src` attribute
still contributes an entry (the undefined value) to the collected script
list, so the extraction does not collect only src values of script
elements that have one. -/
theorem C8_counterexample :
    none ∈ (getResources [{ tag := "script", attrs := [] }]).scripts := by
  decide

theorem scripts_foldl (l : List HtmlElem) (acc : List (Option String)) :
    l.foldl (fun acc el => if el.tag == "script" then acc ++ [attrOf el "src"] else acc) acc =
      acc ++ (l.filter (fun el => el.tag == "script")).map (fun el => attrOf el "src") := by
  induction l generalizing acc with
  | nil => simp
  | cons el rest ih =>
    rw [List.foldl_cons, ih]
    by_cases htag : el.tag = "script"
    · simp [htag, List.filter_cons, List.append_assoc]
    · simp [htag, List.filter_cons]

theorem links_foldl (l : List HtmlElem) (acc : List String) :
    l.foldl
      (fun acc el =>
        if el.tag == "link" then
          match attrOf el "href" with
          | some hre => if isCssHref hre then acc ++ [hre] else acc
          | none => acc
        else acc) acc =
      acc ++ l.filterMap (fun el =>
        if el.tag == "link" then
          match attrOf el "href" with
          | some hre => if isCssHref hre then some hre else none
          | none => none
        else none) := by
  induction l generalizing acc with
  | nil => simp
  | cons el rest ih =>
    rw [List.foldl_cons, ih]
    by_cases htag : el.tag = "link"
    · cases hh : attrOf el "href" with
      | some hre =>
        by_cases hcss : isCssHref hre = true
        · simp [htag, hh, hcss, List.filterMap_cons, List.append_assoc]
        · simp only [Bool.not_eq_true] at hcss
          simp [htag, hh, hcss, List.filterMap_cons]
      | none => simp [htag, hh, List.filterMap_cons]
    · simp [htag, List.filterMap_cons]

theorem addStrictDi_tag (e : HtmlElem) : (addStrictDi e).tag = e.tag := by
  unfold addStrictDi
  split <;> rfl

theorem lookup_map_set (attrs : List (String × String)) (key v name : String)
    (h : name ≠ key) :
    attrLookup (attrs.map fun pr => if pr.1 == key then (pr.1, v) else pr) name =
      attrLookup attrs name := by
  induction attrs with
  | nil => rfl
  | cons pr rest ih =>
    obtain ⟨k, w⟩ := pr
    by_cases hk : (k == key) = true
    · have hkk : k = key := by simpa using hk
      have hn : (k == name) = false := by
        simp only [beq_eq_false_iff_ne]
        rw [hkk]
        exact fun hcon => h hcon.symm
      simp only [List.map_cons, hk, if_true, attrLookup, hn]
      simpa using ih
    · simp only [Bool.not_eq_true] at hk
      simp only [List.map_cons, hk, attrLookup]
      simp only [Bool.false_eq_true, if_false]
      by_cases hn : (k == name) = true
      · simp [attrLookup, hn]
      · simp only [Bool.not_eq_true] at hn
        simp only [attrLookup, hn]
        simpa using ih

theorem lookup_append_single (attrs : List (String × String)) (key v name : String)
    (h : name ≠ key) :
    attrLookup (attrs ++ [(key, v)]) name = attrLookup attrs name := by
  induction attrs with
  | nil =>
    have hn : (key == name) = false := by
      simp only [beq_eq_false_iff_ne]
      exact fun hcon => h hcon.symm
    simp [attrLookup, hn]
  | cons pr rest ih =>
    obtain ⟨k, w⟩ := pr
    by_cases hn : (k == name) = true
    · simp [attrLookup, hn]
    · simp only [Bool.not_eq_true] at hn
      simp only [List.cons_append, attrLookup, hn]
      simpa using ih

theorem lookup_setAttr_ne (attrs : List (String × String)) (key v name : String)
    (h : name ≠ key) :
    attrLookup (setAttr attrs key v) name = attrLookup attrs name := by
  unfold setAttr
  split
  · exact lookup_map_set attrs key v name h
  · exact lookup_append_single attrs key v name h

theorem addStrictDi_attr (e : HtmlElem) (name : String) (h : name ≠ "ng-strict-di") :
    attrOf (addStrictDi e) name = attrOf e name := by
  unfold addStrictDi
  split
  · exact lookup_setAttr_ne e.attrs "ng-strict-di" "true" name h
  · rfl

theorem linkSel_addStrictDi (el : HtmlElem) : linkSel (addStrictDi el) = linkSel el := by
  unfold linkSel
  rw [addStrictDi_tag, addStrictDi_attr el "href" (by decide)]

theorem scripts_map_invariant (doc : List HtmlElem) :
    ((doc.map addStrictDi).filter (fun el => el.tag == "script")).map
        (fun el => attrOf el "src") =
      (doc.filter (fun el => el.tag == "script")).map (fun el => attrOf el "src") := by
  induction doc with
  | nil => rfl
  | cons el rest ih =>
    rw [List.map_cons, List.filter_cons, List.filter_cons, addStrictDi_tag]
    by_cases htag : el.tag = "script"
    · simp only [htag, beq_self_eq_true, if_true]
      rw [List.map_cons, List.map_cons, ih, addStrictDi_attr el "src" (by decide)]
    · have hb : (el.tag == "script") = false := by simpa using htag
      simp only [hb]
      simpa using ih

theorem links_map_invariant (doc : List HtmlElem) :
    (doc.map addStrictDi).filterMap linkSel = doc.filterMap linkSel := by
  induction doc with
  | nil => rfl
  | cons el rest ih =>
    rw [List.map_cons, List.filterMap_cons, List.filterMap_cons, linkSel_addStrictDi]
    cases linkSel el <;> rw [ih]

/-- Claim C8 (amended): `getResources` collects, in document order, one
entry per script element holding its `src` attribute value, where a
script element without `src` contributes an undefined entry (filtered out
only by downstream consumers), and the href of every link element whose
defined href matches the stylesheet pattern; a parser failure rejects the
whole extraction with no partial result. -/
theorem C8_extraction (doc : List HtmlElem)
    (parse : String → Except String (List HtmlElem)) (s err : String) :
    (getResources doc).scripts =
      (doc.filter (fun el => el.tag == "script")).map (fun el => attrOf el "src") ∧
    (getResources doc).links = doc.filterMap linkSel ∧
    (parse s = .error err → getResourcesE parse s = .error err) := by
  refine ⟨?_, ?_, ?_⟩
  · show (doc.map addStrictDi).foldl _ [] = _
    rw [scripts_foldl, List.nil_append, scripts_map_invariant]
  · show (doc.map addStrictDi).foldl _ [] = _
    rw [links_foldl, List.nil_append]
    exact links_map_invariant doc
  · intro hp
    simp [getResourcesE, hp]

/-- Witness for C8: the amended theorem applied at a concrete document
and a failing parser. -/
theorem C8_witness :
    getResourcesE (fun _ => (Except.error "bad" : Except String (List HtmlElem))) "x" =
      Except.error "bad" :=
  (C8_extraction [] (fun _ => Except.error "bad") "x" "bad").2.2 rfl

/-! ## File copying with include/exclude filters (`copyFiles`, common.js
lines 355-397).  Pattern matchers (`RegExp.test`) are modelled as boolean
predicates on the file string; the filesystem existence check
(`fs.existsSync`) is an oracle. -/

theorem flipOnMatch_eq (popts : List (String → Bool)) (b : Bool) (f : String) :
    flipOnMatch popts b f = if popts.any (fun pat => pat f) then !b else b := by
  induction popts with
  | nil => rfl
  | cons p ps ih =>
    by_cases hp : p f = true
    · simp [flipOnMatch, List.find?_cons, List.any_cons, hp]
    · simp only [Bool.not_eq_true] at hp
      simp only [flipOnMatch, List.find?_cons, hp, List.any_cons] at ih ⊢
      simpa using ih

theorem copyFoldl_char (files : List (Option String)) (path dest : String)
    (popts : List (String → Bool)) (cfg : Bool) (fsE : String → Bool)
    (acc : List (String × String)) :
    files.foldl (fun acc file =>
      match file with
      | none => acc
      | some f =>
        if flipOnMatch popts cfg f && !(f = "") then
          if fsE (copyOrigin path f) then
            acc ++ [(copyOrigin path f, copyDest dest path f)]
          else acc
        else acc) acc =
    acc ++ files.filterMap (fun file =>
      match file with
      | none => none
      | some f =>
        if flipOnMatch popts cfg f && !(f = "") && fsE (copyOrigin path f) then
          some (copyOrigin path f, copyDest dest path f)
        else none) := by
  induction files generalizing acc with
  | nil => simp
  | cons file rest ih =>
    rw [List.foldl_cons, ih]
    cases file with
    | none => simp [List.filterMap_cons]
    | some f =>
      by_cases hflip : flipOnMatch popts cfg f = true
      · by_cases hne : f = ""
        · simp [List.filterMap_cons, hflip, hne]
        · by_cases h2 : fsE (copyOrigin path f) = true
          · simp [List.filterMap_cons, hflip, hne, h2, List.append_assoc]
          · simp only [Bool.not_eq_true] at h2
            simp [List.filterMap_cons, hflip, hne, h2]
      · simp only [Bool.not_eq_true] at hflip
        simp [List.filterMap_cons, hflip]

theorem copyFiles_exclude_char (files : List (Option String)) (path dest : String)
    (ex : List (String → Bool)) (io : Option (List (String → Bool)))
    (fsE : String → Bool) :
    copyFiles files path dest { exclude := some ex, incl := io } fsE =
      files.filterMap (fun file =>
        match file with
        | none => none
        | some f =>
          if !(ex.any fun pat => pat f) && !(f = "") && fsE (copyOrigin path f) then
            some (copyOrigin path f, copyDest dest path f)
          else none) := by
  show files.foldl _ [] = _
  simp only [Option.isSome_some, Option.isSome_none, Bool.not_true, Bool.not_false,
    Bool.true_or, Bool.false_or]
  rw [copyFoldl_char files path dest ex true fsE []]
  rw [List.nil_append]
  apply List.filterMap_congr
  intro file _
  cases file with
  | none => rfl
  | some f =>
    by_cases hany : (ex.any fun pat => pat f) = true
    · simp [flipOnMatch_eq, hany]
    · simp only [Bool.not_eq_true] at hany
      simp [flipOnMatch_eq, hany]

/-- Claim C9: copy filtering.  With an exclude list, files matching any
pattern are skipped and all other nonempty files existing at the computed
origin are copied; with an include list, exactly the nonempty existing
files matching some pattern are copied; with neither list, every nonempty
existing file is copied.  In each case the copied pair is the origin
under the source root and the same relative layout under the destination
root. -/
theorem C9_copyFiles (files : List (Option String)) (path dest : String)
    (ex inc : List (String → Bool)) (fsE : String → Bool) :
    copyFiles files path dest { exclude := some ex, incl := none } fsE =
      files.filterMap (fun file =>
        match file with
        | none => none
        | some f =>
          if !(ex.any fun pat => pat f) && !(f = "") && fsE (copyOrigin path f) then
            some (copyOrigin path f, copyDest dest path f)
          else none) ∧
    copyFiles files path dest { exclude := none, incl := some inc } fsE =
      files.filterMap (fun file =>
        match file with
        | none => none
        | some f =>
          if (inc.any fun pat => pat f) && !(f = "") && fsE (copyOrigin path f) then
            some (copyOrigin path f, copyDest dest path f)
          else none) ∧
    copyFiles files path dest { exclude := none, incl := none } fsE =
      files.filterMap (fun file =>
        match file with
        | none => none
        | some f =>
          if !(f = "") && fsE (copyOrigin path f) then
            some (copyOrigin path f, copyDest dest path f)
          else none) := by
  refine ⟨copyFiles_exclude_char files path dest ex none fsE, ?_, ?_⟩
  · show files.foldl _ [] = _
    simp only [Option.isSome_some, Option.isSome_none, Bool.not_true, Bool.not_false,
      Bool.true_or, Bool.false_or]
    rw [copyFoldl_char files path dest inc false fsE []]
    rw [List.nil_append]
    apply List.filterMap_congr
    intro file _
    cases file with
    | none => rfl
    | some f =>
      by_cases hany : (inc.any fun pat => pat f) = true
      · simp [flipOnMatch_eq, hany]
      · simp only [Bool.not_eq_true] at hany
        simp [flipOnMatch_eq, hany]
  · show files.foldl _ [] = _
    simp only [Option.isSome_some, Option.isSome_none, Bool.not_true, Bool.not_false,
      Bool.true_or, Bool.false_or]
    rw [copyFoldl_char files path dest [] true fsE []]
    rw [List.nil_append]
    apply List.filterMap_congr
    intro file _
    cases file with
    | none => rfl
    | some f => simp [flipOnMatch_eq]

/-- Claim C10: when both an exclude and an include list are supplied, the
exclude list takes precedence and the include list is ignored entirely:
the result is identical to supplying the exclude list alone, namely files
matching any exclude pattern are skipped and all other nonempty existing
files are copied. -/
theorem C10_excludeWins (files : List (Option String)) (path dest : String)
    (ex inc : List (String → Bool)) (fsE : String → Bool) :
    copyFiles files path dest { exclude := some ex, incl := some inc } fsE =
      copyFiles files path dest { exclude := some ex, incl := none } fsE ∧
    copyFiles files path dest { exclude := some ex, incl := some inc } fsE =
      files.filterMap (fun file =>
        match file with
        | none => none
        | some f =>
          if !(ex.any fun pat => pat f) && !(f = "") && fsE (copyOrigin path f) then
            some (copyOrigin path f, copyDest dest path f)
          else none) :=
  ⟨rfl, copyFiles_exclude_char files path dest ex (some inc) fsE⟩

/-! ## The script and style pipelines (`processScripts`, common.js lines
466-530; `processLinks`, lines 538-560).  External collaborators
(filesystem, eslint, htmlhint, ng-annotate, uglify, cssnano, cheerio,
html-minifier, glob, templatecache) are oracles collected in `BuildEnv`;
the per-file promise chains become explicit state passing. -/

theorem pOne_flag (opts : PreparedOptions) (env : BuildEnv)
    (bowerDir path script : String) (b : Bool) :
    (processOneScript opts env bowerDir path script b).2.2 =
      (b && !scriptFlips opts env bowerDir path script) := by
  unfold processOneScript scriptFlips
  cases h : readFileM env opts.preprocessResources (joinPath2 path script) with
  | error e => simp
  | ok code0 =>
    by_cases ha : (env.annotateF (rewriteTemplateUrl code0)).errors.length ≠ 0
    · simp [ha]
    · by_cases hm : (lintJs opts env bowerDir path script code0).length > 0
      · by_cases hn : opts.noFailLint = true
        · simp [ha, hm, hn]
        · simp only [Bool.not_eq_true] at hn
          simp [ha, hm, hn]
      · simp [ha, hm]

theorem runFold_noflip (opts : PreparedOptions) (env : BuildEnv)
    (bowerDir path : String) (items : List String)
    (h : ∀ s ∈ items, scriptFlips opts env bowerDir path s = false)
    (acc1 : List (Option String)) (acc2 : List (String × List LintMsg)) :
    ∃ ms, items.foldl (fun st s =>
      let r := processOneScript opts env bowerDir path s st.2.2
      (st.1 ++ [r.1], st.2.1 ++ r.2.1, r.2.2)) (acc1, acc2, true) =
    (acc1 ++ items.map (fun s => (processOneScript opts env bowerDir path s true).1),
      ms, true) := by
  induction items generalizing acc1 acc2 with
  | nil => exact ⟨acc2, by simp⟩
  | cons s rest ih =>
    have hs := h s (List.mem_cons_self s rest)
    have hflag : (processOneScript opts env bowerDir path s true).2.2 = true := by
      rw [pOne_flag, hs]
      rfl
    obtain ⟨ms, hrest⟩ := ih (fun x hx => h x (List.mem_cons_of_mem s hx))
      (acc1 ++ [(processOneScript opts env bowerDir path s true).1])
      (acc2 ++ (processOneScript opts env bowerDir path s true).2.1)
    refine ⟨ms, ?_⟩
    rw [List.foldl_cons]
    show List.foldl _
        (acc1 ++ [(processOneScript opts env bowerDir path s true).1],
          acc2 ++ (processOneScript opts env bowerDir path s true).2.1,
          (processOneScript opts env bowerDir path s true).2.2) rest = _
    rw [hflag, hrest, List.map_cons, List.append_assoc]
    rfl

theorem processScripts_noflip (opts : PreparedOptions) (env : BuildEnv)
    (bowerDir path : String) (scripts : List (Option String))
    (h : ∀ s ∈ truthyList scripts, scriptFlips opts env bowerDir path s = false) :
    processScripts opts env bowerDir path scripts =
      .ok (joinNl ((truthyList scripts).map fun s =>
        ((processOneScript opts env bowerDir path s true).1).getD "")) := by
  unfold processScripts processScriptsRun
  obtain ⟨ms, hrun⟩ := runFold_noflip opts env bowerDir path (truthyList scripts) h [] []
  rw [hrun]
  simp [List.map_map]
  rfl

/-- Claim C1 counterexample: the annotator reports errors for the script
`b.js`, yet the script stage resolves successfully, with `b.js`
contributing an empty string to the bundle next to its sibling; the stage
does not fail and the build is not rejected on account of the annotation
error. -/
theorem C1_counterexample :
    (c1env.annotateF (rewriteTemplateUrl "B")).errors ≠ [] ∧
    processScripts c1opts c1env "bower_components" "p" [some "a.js", some "b.js"] =
      .ok ("~(function()\x7b\nA\n\x7d)()\n") := by
  constructor
  · decide
  · rfl

/-- Claim C1 (amended): dependency-injection annotation errors are caught
by the per-file handler like any other per-file error: the script whose
annotation fails contributes an undefined (hence empty) result and leaves
the shared message list and error flag untouched, and the script stage
still resolves whenever no script records lint messages under
fail-on-lint, so the build is not rejected on account of annotation
errors alone. -/
theorem C1_annotateErrors (opts : PreparedOptions) (env : BuildEnv)
    (bowerDir path script code : String) (b : Bool) (scripts : List (Option String)) :
    (readFileM env opts.preprocessResources (joinPath2 path script) = .ok code →
      (env.annotateF (rewriteTemplateUrl code)).errors ≠ [] →
      processOneScript opts env bowerDir path script b = (none, [], b)) ∧
    ((∀ s ∈ truthyList scripts, scriptFlips opts env bowerDir path s = false) →
      ∃ out, processScripts opts env bowerDir path scripts = .ok out) := by
  constructor
  · intro hr ha
    have hlen : (env.annotateF (rewriteTemplateUrl code)).errors.length ≠ 0 := by
      intro hcon
      exact ha (List.eq_nil_of_length_eq_zero hcon)
    unfold processOneScript
    rw [hr]
    simp [hlen]
  · intro h
    exact ⟨_, processScripts_noflip opts env bowerDir path scripts h⟩

/-- Witness for C1: the amended theorem applied at the concrete
environment of the counterexample. -/
theorem C1_witness :
    processOneScript c1opts c1env "bower_components" "p" "b.js" true = (none, [], true) ∧
    (∃ out, processScripts c1opts c1env "bower_components" "p" [some "a.js"] = .ok out) :=
  ⟨(C1_annotateErrors c1opts c1env "bower_components" "p" "b.js" "B" true []).1
      rfl (by decide),
   (C1_annotateErrors c1opts c1env "bower_components" "p" "" "" true [some "a.js"]).2
      (by decide)⟩

/-- Claim C3: a per-file read error in the script or style pipeline is
confined to that file: the failed script contributes an undefined (hence
empty) entry and leaves the shared state untouched, the failed stylesheet
likewise contributes an undefined entry, and the script stage still
resolves (no exception escapes) whenever no script records lint messages
under fail-on-lint, producing the per-file results joined in order with
the failed file contributing the empty string. -/
theorem C3_perFileIOErrors (opts : PreparedOptions) (env : BuildEnv)
    (bowerDir bowerInner path script link msg msg2 : String) (b : Bool)
    (scripts : List (Option String)) :
    (env.readF (joinPath2 path script) = .error msg →
      processOneScript opts env bowerDir path script b = (none, [], b)) ∧
    (env.readF (joinPath2 path link) = .error msg2 →
      processOneLink opts env bowerInner path link = none) ∧
    ((∀ s ∈ truthyList scripts, scriptFlips opts env bowerDir path s = false) →
      processScripts opts env bowerDir path scripts =
        .ok (joinNl ((truthyList scripts).map fun s =>
          ((processOneScript opts env bowerDir path s true).1).getD ""))) := by
  refine ⟨?_, ?_, processScripts_noflip opts env bowerDir path scripts⟩
  · intro hr
    unfold processOneScript readFileM
    rw [hr]
  · intro hr
    unfold processOneLink readFileM
    rw [hr]

/-- Witness for C3: the theorem applied at the all-reads-fail
environment; with the single missing script the stage resolves with an
empty bundle entry. -/
theorem C3_witness :
    processOneScript c1opts c3env "bower_components" "p" "a.js" true = (none, [], true) ∧
    processOneLink c1opts c3env "lib" "p" "a.css" = none ∧
    processScripts c1opts c3env "bower_components" "p" [some "a.js"] = .ok "" :=
  ⟨(C3_perFileIOErrors c1opts c3env "bower_components" "lib" "p" "a.js" "a.css" "ENOENT"
      "ENOENT" true []).1 rfl,
   (C3_perFileIOErrors c1opts c3env "bower_components" "lib" "p" "a.js" "a.css" "ENOENT"
      "ENOENT" true []).2.1 rfl,
   (C3_perFileIOErrors c1opts c3env "bower_components" "lib" "p" "a.js" "a.css" "ENOENT"
      "ENOENT" true [some "a.js"]).2.2 (by decide)⟩

/-! ## Final assembly (`processAngular` tail, common.js lines 616-639). -/

/-- Claim C4: with both stages completed, the outcome is decided from
their outputs: both empty rejects naming both sides, an empty script
output rejects naming the script side, an empty style output rejects
naming the style side, and two nonempty outputs proceed to assembly and
produce exactly the three final artifacts. -/
theorem C4_outcome (env : BuildEnv) (tjs idx js css : String) (n1 n2 : Nat) :
    (js = "" → css = "" → assembleOutcome env tjs idx js css n1 n2 =
      .error "CSS and JS failed") ∧
    (js = "" → css ≠ "" → assembleOutcome env tjs idx js css n1 n2 =
      .error "JS failed") ∧
    (js ≠ "" → css = "" → assembleOutcome env tjs idx js css n1 n2 =
      .error "CSS failed") ∧
    (js ≠ "" → css ≠ "" → ∃ idxOut jsOut,
      assembleOutcome env tjs idx js css n1 n2 =
        .ok [("index.html", idxOut), ("all.min.js", jsOut), ("all.min.css", css)]) := by
  refine ⟨?_, ?_, ?_, ?_⟩
  · intro h1 h2
    simp [assembleOutcome, h1, h2]
  · intro h1 h2
    simp [assembleOutcome, h1, h2]
  · intro h1 h2
    simp [assembleOutcome, h1, h2]
  · intro h1 h2
    refine ⟨env.htmlMinifyF (replaceRegion "<!--startsrc-->" "<!--endsrc-->"
        ("<script src=\"all.min.js?v=" ++ toString n2 ++ "\"></script>")
        (replaceRegion "<!--startcss-->" "<!--endcss-->"
          ("<link href=\"all.min.css?v=" ++ toString n1 ++ "\" rel=\"stylesheet\">") idx)),
      js ++ "\n" ++ wrapIife tjs, ?_⟩
    simp [assembleOutcome, h1, h2]

/-- Witness for C4: the theorem applied at concrete stage outputs, one
failing pair and one succeeding pair. -/
theorem C4_witness :
    assembleOutcome c1env "t" "i" "" "" 0 0 = .error "CSS and JS failed" ∧
    (∃ idxOut jsOut, assembleOutcome c1env "t" "i" "J" "C" 0 0 =
      .ok [("index.html", idxOut), ("all.min.js", jsOut), ("all.min.css", "C")]) :=
  ⟨(C4_outcome c1env "t" "i" "" "" 0 0).1 rfl rfl,
   (C4_outcome c1env "t" "i" "J" "C" 0 0).2.2.2 (by decide) (by decide)⟩

/-! ## Completion-order model for the concurrent per-file promises.
`Promise.all` stores each settled result at the index of its promise, so
a run is modelled by the list of indices in completion order (`order`);
side effects on the shared state happen in that order. -/

theorem setFold_length (v : Nat → Option String) (order : List Nat)
    (acc : List (Option String)) : (setFold v order acc).length = acc.length := by
  induction order generalizing acc with
  | nil => rfl
  | cons i rest ih => rw [setFold, ih, List.length_set]

theorem setFold_not_mem (v : Nat → Option String) (order : List Nat)
    (acc : List (Option String)) (j : Nat) (h : j ∉ order) :
    (setFold v order acc)[j]? = acc[j]? := by
  induction order generalizing acc with
  | nil => rfl
  | cons i rest ih =>
    have hij : i ≠ j := fun hcon => h (hcon ▸ List.mem_cons_self i rest)
    have hrest : j ∉ rest := fun hcon => h (List.mem_cons_of_mem i hcon)
    rw [setFold, ih _ hrest, List.getElem?_set_ne hij]

theorem setFold_mem (v : Nat → Option String) (order : List Nat)
    (acc : List (Option String)) (j : Nat) (hj : j ∈ order) (hlen : j < acc.length) :
    (setFold v order acc)[j]? = some (v j) := by
  induction order generalizing acc with
  | nil => cases hj
  | cons i rest ih =>
    by_cases hr : j ∈ rest
    · rw [setFold, ih _ hr (by rw [List.length_set]; exact hlen)]
    · have hij : i = j := by
        rcases List.mem_cons.mp hj with h | h
        · exact h.symm
        · exact absurd h hr
      rw [setFold, setFold_not_mem _ _ _ _ hr, hij, List.getElem?_set_self hlen]

theorem setFold_perm (v : Nat → Option String) (order : List Nat) (n : Nat)
    (hperm : order.Perm (List.range n)) :
    setFold v order (List.replicate n none) = (List.range n).map v := by
  apply List.ext_getElem?
  intro j
  by_cases hj : j < n
  · have hmem : j ∈ order := hperm.mem_iff.mpr (List.mem_range.mpr hj)
    rw [setFold_mem v order _ j hmem (by rw [List.length_replicate]; exact hj)]
    rw [List.getElem?_map, List.getElem?_range hj]
    rfl
  · have h1 : (setFold v order (List.replicate n none)).length ≤ j := by
      rw [setFold_length, List.length_replicate]
      omega
    have h2 : ((List.range n).map v).length ≤ j := by
      rw [List.length_map, List.length_range]
      omega
    rw [List.getElem?_eq_none h1, List.getElem?_eq_none h2]

theorem rangeMap_items {α : Type} (items : List String) (v : Nat → Option α)
    (f : String → Option α)
    (h : ∀ (i : Nat) (hlt : i < items.length), v i = f (items.get ⟨i, hlt⟩)) :
    (List.range items.length).map v = items.map f := by
  apply List.ext_getElem?
  intro j
  by_cases hj : j < items.length
  · rw [List.getElem?_map, List.getElem?_range hj, List.getElem?_map,
      List.getElem?_eq_getElem hj]
    simp [h j hj]
  · have h1 : ((List.range items.length).map v).length ≤ j := by
      rw [List.length_map, List.length_range]
      omega
    have h2 : (items.map f).length ≤ j := by
      rw [List.length_map]
      omega
    rw [List.getElem?_eq_none h1, List.getElem?_eq_none h2]

theorem schedRun_flag (opts : PreparedOptions) (env : BuildEnv) (bowerDir path : String)
    (items : List String) (order : List Nat) (st : List (Option String) × Bool) :
    (schedRun opts env bowerDir path items order st).2 =
      (st.2 && order.all (fun i =>
        match items[i]? with
        | some s => !scriptFlips opts env bowerDir path s
        | none => true)) := by
  induction order generalizing st with
  | nil => simp [schedRun]
  | cons i rest ih =>
    cases hi : items[i]? with
    | none =>
      simp only [schedRun, hi, List.all_cons]
      rw [ih]
      simp
    | some s =>
      simp only [schedRun, hi, List.all_cons]
      rw [ih]
      dsimp only
      rw [pOne_flag, Bool.and_assoc]

theorem schedRun_noflip (opts : PreparedOptions) (env : BuildEnv) (bowerDir path : String)
    (items : List String) (order : List Nat) (acc : List (Option String))
    (hflips : ∀ i ∈ order, ∀ s, items[i]? = some s →
      scriptFlips opts env bowerDir path s = false)
    (hlen : acc.length = items.length) :
    schedRun opts env bowerDir path items order (acc, true) =
      (setFold (fun i =>
        match items[i]? with
        | some s => (processOneScript opts env bowerDir path s true).1
        | none => none) order acc, true) := by
  induction order generalizing acc with
  | nil => rfl
  | cons i rest ih =>
    cases hi : items[i]? with
    | none =>
      have hge : items.length ≤ i := by
        by_contra hlt
        push_neg at hlt
        rw [List.getElem?_eq_getElem hlt] at hi
        cases hi
      have hvi : (match items[i]? with
          | some s => (processOneScript opts env bowerDir path s true).1
          | none => none) = none := by
        rw [hi]
      simp only [schedRun, hi, setFold, hvi]
      rw [List.set_eq_of_length_le (by omega)]
      exact ih _ (fun i2 hi2 s hs => hflips i2 (List.mem_cons_of_mem _ hi2) s hs) hlen
    | some s =>
      have hf : scriptFlips opts env bowerDir path s = false :=
        hflips i (List.mem_cons_self i rest) s hi
      have hflag : (processOneScript opts env bowerDir path s true).2.2 = true := by
        rw [pOne_flag, hf]
        rfl
      have hvi : (match items[i]? with
          | some s => (processOneScript opts env bowerDir path s true).1
          | none => none) = (processOneScript opts env bowerDir path s true).1 := by
        rw [hi]
      simp only [schedRun, hi, setFold, hvi]
      rw [hflag]
      exact ih _ (fun i2 hi2 s2 hs => hflips i2 (List.mem_cons_of_mem _ hi2) s2 hs)
        (by rw [List.length_set]; exact hlen)

/-- Claim C5: under any completion order of the asynchronous per-file
operations (any permutation of the slot indices), the script stage
produces exactly the per-script results joined by newline in original
reference order (or the fixed lint rejection, independent of the order),
and the style stage produces exactly the per-stylesheet results joined by
newline in original reference order. -/
theorem C5_orderPreservation (opts : PreparedOptions) (env : BuildEnv)
    (bowerDir bowerInner path : String) (items links : List String)
    (order order2 : List Nat)
    (h1 : order.Perm (List.range items.length))
    (h2 : order2.Perm (List.range links.length)) :
    processScriptsSched opts env bowerDir path items order =
      (if items.all (fun s => !scriptFlips opts env bowerDir path s) then
        .ok (joinNl (items.map fun s =>
          ((processOneScript opts env bowerDir path s true).1).getD ""))
      else .error "JS lint errors") ∧
    processLinksSched opts env bowerInner path links order2 =
      joinNl (links.map fun l => (processOneLink opts env bowerInner path l).getD "") := by
  constructor
  · by_cases hall : items.all (fun s => !scriptFlips opts env bowerDir path s) = true
    · rw [if_pos hall]
      have hflips : ∀ i ∈ order, ∀ s, items[i]? = some s →
          scriptFlips opts env bowerDir path s = false := by
        intro i _ s hs
        have hmem := List.getElem?_mem hs
        have := List.all_eq_true.mp hall s hmem
        simpa using this
      unfold processScriptsSched
      rw [schedRun_noflip opts env bowerDir path items order _ hflips
        (List.length_replicate items.length none)]
      rw [setFold_perm _ order items.length h1]
      rw [rangeMap_items items _
        (fun s => (processOneScript opts env bowerDir path s true).1)
        (fun i hlt => by rw [List.getElem?_eq_getElem hlt]; rfl)]
      rw [if_pos rfl, List.map_map]
      rfl
    · have hallf : items.all (fun s => !scriptFlips opts env bowerDir path s) = false := by
        cases hv : items.all (fun s => !scriptFlips opts env bowerDir path s)
        · rfl
        · exact absurd hv hall
      rw [if_neg hall]
      obtain ⟨s, hsmem, hsp⟩ := List.all_eq_false.mp hallf
      obtain ⟨j, hjlt, hjeq⟩ := List.mem_iff_getElem.mp hsmem
      have hjord : j ∈ order := h1.mem_iff.mpr (List.mem_range.mpr hjlt)
      unfold processScriptsSched
      have hpred : (order.all (fun i =>
          match items[i]? with
          | some s => !scriptFlips opts env bowerDir path s
          | none => true)) = false := by
        apply List.all_eq_false.mpr
        refine ⟨j, hjord, ?_⟩
        rw [List.getElem?_eq_getElem hjlt, hjeq]
        exact hsp
      dsimp only
      rw [schedRun_flag opts env bowerDir path items order
        (List.replicate items.length none, true)]
      dsimp only
      rw [hpred]
      rfl
  · unfold processLinksSched
    rw [setFold_perm _ order2 links.length h2]
    rw [rangeMap_items links _
      (fun l => processOneLink opts env bowerInner path l)
      (fun i hlt => by
        unfold linkResultAt
        rw [List.getElem?_eq_getElem hlt]
        rfl)]
    rw [List.map_map]
    rfl

/-- Witness for C5: the theorem applied with a reversed completion order
for two scripts and a singleton order for one stylesheet. -/
theorem C5_witness :
    processScriptsSched c1opts c1env "bower_components" "p" ["a.js", "b.js"] [1, 0] =
      (if (["a.js", "b.js"].all fun s =>
          !scriptFlips c1opts c1env "bower_components" "p" s) then
        .ok (joinNl (["a.js", "b.js"].map fun s =>
          ((processOneScript c1opts c1env "bower_components" "p" s true).1).getD ""))
      else .error "JS lint errors") ∧
    processLinksSched c1opts c1env "lib" "p" ["a.css"] [0] =
      joinNl (["a.css"].map fun l => (processOneLink c1opts c1env "lib" "p" l).getD "") :=
  C5_orderPreservation c1opts c1env "bower_components" "lib" "p" ["a.js", "b.js"]
    ["a.css"] [1, 0] [0] (by decide) (by decide)

/-! ## Orchestration trace model (`prepareTemplates`, common.js lines
419-458; `processAngular`, lines 585-640; `build`, beforePrepare.js lines
77-89).  Filesystem effects carry the root they touch: the temporary
build directory, the final `www` destination, or the logs directory. -/

theorem ptrT_effs {env : BuildEnv} {content path destPath : String}
    {newEffs : List FsEffect}
    (h : processTemplateResourcesT env .tmpR content path destPath = .ok newEffs) :
    ∀ ef ∈ newEffs, effectTouches .wwwR ef = false := by
  intro ef hef
  unfold processTemplateResourcesT at h
  cases hr : getResourcesE env.parseHtml content with
  | error e => rw [hr] at h; cases h
  | ok r =>
    rw [hr] at h
    simp only [Except.ok.injEq] at h
    subst h
    obtain ⟨pr, _, hpr⟩ := List.mem_map.mp hef
    rw [← hpr]
    rfl

theorem consOut_effs (c : String)
    (r : Except String (List String) × List (String × List LintMsg) × List FsEffect) :
    (consOut c r).2.2 = r.2.2 := by
  obtain ⟨exc, m, ef⟩ := r
  cases exc <;> rfl

theorem consOut_error (c e : String) (m : List (String × List LintMsg))
    (ef : List FsEffect) :
    consOut c (Except.error e, m, ef) = (Except.error e, m, ef) := rfl

theorem prepareGo_fails (opts : PreparedOptions) (env : BuildEnv)
    (bowerDir : String) (destRoot : FsRoot) (path destPath : String)
    (hNoFail : opts.noFailLint = false) :
    ∀ (templates : List (String × String)) (msgs : List (String × List LintMsg))
      (effs : List FsEffect),
    (∃ t ∈ templates, 0 < (lintHtml opts env bowerDir path t.1 t.2).length) →
    ∃ (e : String) (m : List (String × List LintMsg)) (ef : List FsEffect),
      prepareTemplatesGo opts env bowerDir destRoot path destPath templates msgs effs =
        (Except.error e, m, ef) := by
  intro templates
  induction templates with
  | nil =>
    rintro msgs effs ⟨t, ht, _⟩
    cases ht
  | cons hd rest ih =>
    rintro msgs effs ⟨t, ht, hlint⟩
    obtain ⟨fp, content⟩ := hd
    by_cases hm : 0 < (lintHtml opts env bowerDir path fp content).length
    · exact ⟨"Linting failed",
        msgs ++ [(joinPath2 path fp, lintHtml opts env bowerDir path fp content)], effs,
        by simp [prepareTemplatesGo, hm, hNoFail]⟩
    · have htr : t ∈ rest := by
        rcases List.mem_cons.mp ht with h | h
        · subst h
          exact absurd hlint hm
        · exact h
      cases hp : processTemplateResourcesT env destRoot content path destPath with
      | error e => exact ⟨e, msgs, effs, by simp [prepareTemplatesGo, hm, hp]⟩
      | ok newEffs =>
        obtain ⟨e, m, ef, hrec⟩ := ih msgs (effs ++ newEffs) ⟨t, htr, hlint⟩
        exact ⟨e, m, ef, by simp [prepareTemplatesGo, hm, hp, hrec, consOut_error]⟩

theorem prepareGo_effs (opts : PreparedOptions) (env : BuildEnv)
    (bowerDir path destPath : String) :
    ∀ (templates : List (String × String)) (msgs : List (String × List LintMsg))
      (effs : List FsEffect),
    (∀ ef ∈ effs, effectTouches .wwwR ef = false) →
    ∀ ef ∈ (prepareTemplatesGo opts env bowerDir .tmpR path destPath templates
      msgs effs).2.2, effectTouches .wwwR ef = false := by
  intro templates
  induction templates with
  | nil =>
    intro msgs effs h ef hef
    exact h ef hef
  | cons hd rest ih =>
    intro msgs effs h ef hef
    obtain ⟨fp, content⟩ := hd
    by_cases hm : 0 < (lintHtml opts env bowerDir path fp content).length
    · by_cases hb : opts.noFailLint = true
      · cases hp : processTemplateResourcesT env .tmpR content path destPath with
        | error e =>
          have hres : (prepareTemplatesGo opts env bowerDir .tmpR path destPath
              ((fp, content) :: rest) msgs effs).2.2 = effs := by
            simp [prepareTemplatesGo, hm, hb, hp]
          rw [hres] at hef
          exact h ef hef
        | ok newEffs =>
          have hres : (prepareTemplatesGo opts env bowerDir .tmpR path destPath
              ((fp, content) :: rest) msgs effs).2.2 =
              (prepareTemplatesGo opts env bowerDir .tmpR path destPath rest
                (msgs ++ [(joinPath2 path fp, lintHtml opts env bowerDir path fp content)])
                (effs ++ newEffs)).2.2 := by
            simp [prepareTemplatesGo, hm, hb, hp, consOut_effs]
          rw [hres] at hef
          refine ih _ _ ?_ ef hef
          intro ef2 hef2
          rcases List.mem_append.mp hef2 with h2 | h2
          · exact h ef2 h2
          · exact ptrT_effs hp ef2 h2
      · have hbf : opts.noFailLint = false := by
          cases hv : opts.noFailLint
          · rfl
          · exact absurd hv hb
        have hres : (prepareTemplatesGo opts env bowerDir .tmpR path destPath
            ((fp, content) :: rest) msgs effs).2.2 = effs := by
          simp [prepareTemplatesGo, hm, hbf]
        rw [hres] at hef
        exact h ef hef
    · cases hp : processTemplateResourcesT env .tmpR content path destPath with
      | error e =>
        have hres : (prepareTemplatesGo opts env bowerDir .tmpR path destPath
            ((fp, content) :: rest) msgs effs).2.2 = effs := by
          simp [prepareTemplatesGo, hm, hp]
        rw [hres] at hef
        exact h ef hef
      | ok newEffs =>
        have hres : (prepareTemplatesGo opts env bowerDir .tmpR path destPath
            ((fp, content) :: rest) msgs effs).2.2 =
            (prepareTemplatesGo opts env bowerDir .tmpR path destPath rest msgs
              (effs ++ newEffs)).2.2 := by
          simp [prepareTemplatesGo, hm, hp, consOut_effs]
        rw [hres] at hef
        refine ih _ _ ?_ ef hef
        intro ef2 hef2
        rcases List.mem_append.mp hef2 with h2 | h2
        · exact h ef2 h2
        · exact ptrT_effs hp ef2 h2

/-- Claim C7: if some template under the template root produces HTML-lint
messages while `noFailLint` is false, the whole build rejects, and its
effect trace contains no operation touching the final `www` destination:
`www` is neither wiped nor written, so its previous contents are left
unchanged. -/
theorem C7_templateLintNoPublish (opts : PreparedOptions) (env : BuildEnv)
    (bowerDir bowerInner : String) (now1 now2 : Nat)
    (hNoFail : opts.noFailLint = false)
    (hfail : ∃ t ∈ env.templates,
      0 < (lintHtml opts env bowerDir "src" t.1 t.2).length) :
    (∃ e, (buildT opts env bowerDir bowerInner now1 now2).1 = Except.error e) ∧
    ∀ ef ∈ (buildT opts env bowerDir bowerInner now1 now2).2,
      effectTouches FsRoot.wwwR ef = false := by
  obtain ⟨e, m, ef, hgo⟩ := prepareGo_fails opts env bowerDir FsRoot.tmpR "src"
    (joinPath2 "tmp" "") hNoFail env.templates [] [] hfail
  have hpt : prepareTemplatesT opts env bowerDir FsRoot.tmpR "src" (joinPath2 "tmp" "") =
      (Except.error e, ef) := by
    unfold prepareTemplatesT
    rw [hgo]
  have hpa : processAngularT opts env bowerDir bowerInner FsRoot.tmpR "src" "tmp" ""
      now1 now2 = (Except.error e, ef) := by
    unfold processAngularT
    dsimp only
    rw [hpt]
  have hb : buildT opts env bowerDir bowerInner now1 now2 =
      (Except.error e, [FsEffect.clean FsRoot.tmpR, FsEffect.mkdir FsRoot.tmpR] ++ ef) := by
    unfold buildT
    rw [hpa]
  constructor
  · exact ⟨e, by rw [hb]⟩
  · intro ef2 hef2
    rw [hb] at hef2
    rcases List.mem_append.mp hef2 with h2 | h2
    · rcases List.mem_cons.mp h2 with h3 | h3
      · rw [h3]
        rfl
      · rcases List.mem_cons.mp h3 with h4 | h4
        · rw [h4]
          rfl
        · cases h4
    · have hall := prepareGo_effs opts env bowerDir "src" (joinPath2 "tmp" "")
        env.templates [] [] (by intro x hx; cases hx)
      rw [hgo] at hall
      exact hall ef2 h2

/-- Witness for C7: the theorem applied at the concrete failing
template. -/
theorem C7_witness :
    (∃ e, (buildT c7opts c7env "bower_components" "lib" 0 0).1 = Except.error e) ∧
    ∀ ef ∈ (buildT c7opts c7env "bower_components" "lib" 0 0).2,
      effectTouches FsRoot.wwwR ef = false :=
  C7_templateLintNoPublish c7opts c7env "bower_components" "lib" 0 0 rfl
    ⟨("t.html", "<p>"), by decide, by decide⟩
